import Mathlib

/-!
# Verification of the Jira → DynamoDB ingestion handler

A shallow embedding of `src/index.js` (latest snapshot): the content
parser `parseJiraContent`, the record builder `createDynamoItem`, the
chunked batch writer `batchWriteToDynamoDB` with retry/backoff, the
per-item fallback writer `fallbackIndividualWrite`, and the Lambda
`handler`.

JavaScript strings are modelled as `List Char` (`Str`); JavaScript
objects (insertion-ordered string-keyed maps) as association lists with
an overwrite-on-existing-key assignment `setK`; JavaScript numbers that
hold counters as `Int` (so that `chunk.length - unprocessed.length`
keeps JS subtraction semantics).  The DynamoDB document client is an
oracle parameter: `send` maps a global call index and a submitted batch
to either an unprocessed-items list or a thrown error message, and `put`
maps a position and an item to success or a thrown error message.  Waits
(`setTimeout`) are recorded as a trace of delay durations.
-/

namespace JiraDynamo

/-- JavaScript strings, modelled as their character lists. -/
abbrev Str := List Char

/-! ## JS objects as insertion-ordered association lists -/

/-- Property read `o[k]`: value at the first (hence, for deduplicated
objects, the only) occurrence of key `k`; `none` models `undefined`. -/
def getK (o : List (Str × α)) (k : Str) : Option α :=
  (o.find? (fun p => p.1 == k)).map (fun p => p.2)

/-- Property write `o[k] = v`: overwrite the value if the key is
present, otherwise append the new key in insertion order. -/
def setK (o : List (Str × α)) (k : Str) (v : α) : List (Str × α) :=
  if o.any (fun p => p.1 == k) then
    o.map (fun p => if p.1 == k then (k, v) else p)
  else
    o ++ [(k, v)]

/-! ## Text primitives (JS `split`, `indexOf`, `trim`, `toLowerCase`) -/

/-- `line.indexOf(c)`: index of the first occurrence, `none` for JS `-1`. -/
def idxOf (c : Char) : List Char → Option Nat
  | [] => none
  | a :: as => if a == c then some 0 else (idxOf c as).map (fun i => i + 1)

/-- `s.split(sep)` for a one-character separator: always non-empty,
`"" → [""]`, and a trailing separator yields a trailing `""`. -/
def splitOnChar (sep : Char) : List Char → List (List Char)
  | [] => [[]]
  | c :: cs =>
    match splitOnChar sep cs with
    | [] => [[]]
    | r :: rs => if c == sep then [] :: r :: rs else (c :: r) :: rs

/-- `s.trim()`: strip leading and trailing whitespace. -/
def trimChars (l : List Char) : List Char :=
  ((l.dropWhile Char.isWhitespace).reverse.dropWhile Char.isWhitespace).reverse

/-- `s.toLowerCase()` on the basic-latin range. -/
def toLowerChars (l : List Char) : List Char :=
  l.map Char.toLower

/-- JS number-to-string coercion for the naturals we need. -/
def jsToString (n : Nat) : Str :=
  (Nat.repr n).data

/-! ## Content Parser (`parseJiraContent`, src/index.js lines 18–56) -/

/-- One iteration of the `for (const line of lines)` loop: find the
first colon; if its index is positive, the trimmed lower-cased prefix is
the key and the trimmed suffix the value; the six recognized keys are
mapped to canonical names, every other key is stored verbatim. -/
def parseLine (fields : List (Str × Str)) (line : Str) : List (Str × Str) :=
  match idxOf ':' line with
  | none => fields
  | some i =>
    if 0 < i then
      let key := toLowerChars (trimChars (line.take i))
      let value := trimChars (line.drop (i + 1))
      if key == "key".data then setK fields "issueKey".data value
      else if key == "summary".data then setK fields "summary".data value
      else if key == "priority".data then setK fields "priority".data value
      else if key == "creator".data then setK fields "creator".data value
      else if key == "status".data then setK fields "status".data value
      else if key == "assignee".data then setK fields "assignee".data value
      else setK fields key value
    else fields

/-- `parseJiraContent(content)`: split on newlines and fold the
line parser over an initially empty field object. -/
def parseJiraContent (content : Str) : List (Str × Str) :=
  (splitOnChar '\n' content).foldl parseLine []

/-- A line the parser extracts a field from: its first colon exists and
sits at a positive index. -/
def wellFormedLine (line : Str) : Bool :=
  match idxOf ':' line with
  | some i => decide (0 < i)
  | none => false

/-- The object key a line writes to, after trimming, lower-casing and
canonical renaming (`key ↦ issueKey`; the other five recognized keys
keep their names); `none` when the line is not well-formed. -/
def lineTargetKey (line : Str) : Option Str :=
  match idxOf ':' line with
  | some i =>
    if 0 < i then
      let key := toLowerChars (trimChars (line.take i))
      some (if key == "key".data then "issueKey".data else key)
    else none
  | none => none

/-! ## Record Builder (`createDynamoItem`, src/index.js lines 64–86) -/

/-- A persisted record: a JS object with possibly-`undefined` values. -/
abbrev Item := List (Str × Option Str)

/-- The canonical attribute names excluded from the dynamic spread
(the filter on line 82 of src/index.js). -/
def canonicalParsedKeys : List Str :=
  ["issueKey".data, "summary".data, "priority".data, "creator".data,
   "status".data, "assignee".data]

/-- `createDynamoItem(message, parsedFields)`.  `title` is
`message.title` (possibly `undefined`), `content` is `message.content`,
`nowMs` is `Date.now()` and `nowISO` the ISO rendering of the same
instant.  The object literal lists the canonical fields first; the
spread of the filtered `parsedFields` entries then assigns every
non-canonical parsed key, overwriting a same-named earlier field, which
is exactly JS object-spread semantics. -/
def createDynamoItem (title : Option Str) (content : Str) (nowMs : Nat)
    (nowISO : Str) (parsedFields : List (Str × Str)) : Item :=
  let issueId : Str :=
    match getK parsedFields "issueKey".data with
    | some v => if v.isEmpty then "unknown-".data ++ jsToString nowMs else v
    | none => "unknown-".data ++ jsToString nowMs
  let base : Item :=
    [("issueId".data, some issueId),
     ("timestamp".data, some nowISO),
     ("title".data, title),
     ("summary".data, getK parsedFields "summary".data),
     ("priority".data, getK parsedFields "priority".data),
     ("creator".data, getK parsedFields "creator".data),
     ("status".data, getK parsedFields "status".data),
     ("assignee".data, getK parsedFields "assignee".data),
     ("content".data, some content),
     ("lastUpdated".data, some nowISO),
     ("processedAt".data, some nowISO)]
  (parsedFields.filter
      (fun p => !(canonicalParsedKeys.contains p.1))).foldl
    (fun o p => setK o p.1 (some p.2)) base

/-! ## Batch Writer (`batchWriteToDynamoDB`, src/index.js lines 93–155) -/

/-- `MAX_BATCH_SIZE` (line 10). -/
def MAX_BATCH_SIZE : Nat := 25

/-- `MAX_RETRIES` (line 11). -/
def MAX_RETRIES : Nat := 3

/-- Outcome of one `dynamoDB.send(BatchWriteCommand …)`: either the
(possibly empty) unprocessed-items list for this table, or a thrown
exception carrying its message. -/
inductive SendResult (α : Type) where
  | ok (unprocessed : List α)
  | err (msg : Str)
  deriving DecidableEq

/-- The store oracle: response of the `n`-th `send` call of the run to
the submitted request list. -/
abbrev Store (α : Type) := Nat → List α → SendResult α

/-- `{ successful, failed, errors }` accumulated by both writers. -/
structure BatchResults where
  successful : Int
  failed : Int
  errors : List Str
  deriving DecidableEq

/-- Observable activity for one chunk: the initial submission, the
payload of each retry submission, and the backoff waits. -/
structure ChunkTrace (α : Type) where
  initial : List α
  retrySubs : List (List α)
  delays : List Nat
  deriving DecidableEq

/-- Result of the `while (unprocessedItems.length > 0 && retryCount <
MAX_RETRIES)` loop: the final unprocessed list, or the message of an
exception thrown by a retry `send`; plus the waits performed, the retry
payloads submitted, and the next free call index.  `retryCount` is the
attempt counter, `fuel = MAX_RETRIES - retryCount` bounds the loop. -/
structure RetryOut (α : Type) where
  out : Except Str (List α)
  delays : List Nat
  retrySubs : List (List α)
  nextCall : Nat

/-- The retry loop of lines 121–136. -/
def retryLoop (store : Store α) :
    List α → Nat → Nat → Nat → RetryOut α
  | u, _, k, 0 => ⟨.ok u, [], [], k⟩
  | u, retryCount, k, fuel + 1 =>
    if u.isEmpty then ⟨.ok u, [], [], k⟩
    else
      let d := 2 ^ retryCount * 100
      match store k u with
      | .err m => ⟨.error m, [d], [u], k + 1⟩
      | .ok u' =>
        let rest := retryLoop store u' (retryCount + 1) (k + 1) fuel
        ⟨rest.out, d :: rest.delays, u :: rest.retrySubs, rest.nextCall⟩

/-- The body of the `for` loop over one chunk (lines 108–151): submit
the chunk, run the retry loop, then either count
`chunk.length - unprocessed.length` successful and `unprocessed.length`
failed (appending a message when the remainder is non-empty), or — when
a `send` threw — count the whole chunk failed and record the message. -/
def processChunk (store : Store α) (k : Nat) (chunk : List α) :
    BatchResults × ChunkTrace α × Nat :=
  match store k chunk with
  | .err m => (⟨0, (chunk.length : Int), [m]⟩, ⟨chunk, [], []⟩, k + 1)
  | .ok u0 =>
    let r := retryLoop store u0 0 (k + 1) MAX_RETRIES
    match r.out with
    | .error m =>
      (⟨0, (chunk.length : Int), [m]⟩, ⟨chunk, r.retrySubs, r.delays⟩, r.nextCall)
    | .ok u =>
      (⟨(chunk.length : Int) - (u.length : Int), (u.length : Int),
        if 0 < u.length then
          [jsToString u.length ++ " items failed after retries".data]
        else []⟩,
       ⟨chunk, r.retrySubs, r.delays⟩, r.nextCall)

/-- Fuel-indexed slicing loop of line 101:
`for (let i = 0; i < items.length; i += MAX_BATCH_SIZE)`. -/
def batchChunksAux (fuel : Nat) : List α → List (List α)
  | [] => []
  | a :: l =>
    match fuel with
    | 0 => []
    | f + 1 =>
      (a :: l).take MAX_BATCH_SIZE :: batchChunksAux f ((a :: l).drop MAX_BATCH_SIZE)

/-- The contiguous groups of at most `MAX_BATCH_SIZE` items, in input
order, that the batch writer submits. -/
def batchChunks (items : List α) : List (List α) :=
  batchChunksAux items.length items

/-- Sequential processing of the chunk list, threading the store-call
index and accumulating results, per-chunk traces, (lines 101–152). -/
def batchWriteAux (store : Store α) (k : Nat) :
    List (List α) → BatchResults × List (ChunkTrace α) × Nat
  | [] => (⟨0, 0, []⟩, [], k)
  | c :: cs =>
    let r1 := processChunk store k c
    let r2 := batchWriteAux store r1.2.2 cs
    (⟨r1.1.successful + r2.1.successful, r1.1.failed + r2.1.failed,
      r1.1.errors ++ r2.1.errors⟩,
     r1.2.1 :: r2.2.1, r2.2.2)

/-- `batchWriteToDynamoDB(items)`. -/
def batchWriteToDynamoDB (store : Store α) (items : List α) :
    BatchResults × List (ChunkTrace α) × Nat :=
  batchWriteAux store 0 (batchChunks items)

/-! ## Fallback Writer (`fallbackIndividualWrite`, src/index.js lines 162–197) -/

/-- Outcome of one `dynamoDB.send(PutCommand …)`. -/
inductive PutResult where
  | ok
  | err (msg : Str)
  deriving DecidableEq

/-- The single-put oracle: outcome of the write fired for the item at
the given position of the fallback input. -/
abbrev PutStore (α : Type) := Nat → α → PutResult

/-- The settled value of one item promise (lines 165–178): the `catch`
inside the async closure turns a throw into a

`{ success: false, issueId, error }` value, so the promise itself

always fulfills. -/
structure WriteResult where
  success : Bool
  issueId : Str
  error : Option Str
  deriving DecidableEq

/-- One `items.map(async item => …)` closure, at its position. -/
def singleWrite (put : PutStore α) (issueIdOf : α → Str) (i : Nat) (a : α) :
    WriteResult :=
  match put i a with
  | .ok => ⟨true, issueIdOf a, none⟩
  | .err e => ⟨false, issueIdOf a, some e⟩

/-- `Promise.allSettled` over the mapped closures: one settled
`WriteResult` per input item, in input order, each depending only on its
own item's put outcome. -/
def fallbackWrites (put : PutStore α) (issueIdOf : α → Str) :
    Nat → List α → List WriteResult
  | _, [] => []
  | i, a :: as => singleWrite put issueIdOf i a :: fallbackWrites put issueIdOf (i + 1) as

/-- The `forEach` aggregation of lines 182–194 (every promise is
fulfilled, so only the `fulfilled` branch is live). -/
def fallbackIndividualWrite (put : PutStore α) (issueIdOf : α → Str)
    (items : List α) : BatchResults :=
  (fallbackWrites put issueIdOf 0 items).foldl
    (fun r w =>
      if w.success then
        { r with successful := r.successful + 1 }
      else
        { r with failed := r.failed + 1,
                 errors := r.errors ++ [w.issueId ++ ": ".data ++ w.error.getD []] })
    ⟨0, 0, []⟩

/-! ## Pipeline Orchestrator (`handler`, src/index.js lines 202–286) -/

/-- One SQS queue record. -/
structure QueueRecord where
  messageId : Str
  body : Str
  deriving DecidableEq

/-- The envelope `JSON.parse(record.body)` may produce: `title` and
`content` properties, either possibly `undefined`. -/
structure JsMessage where
  title : Option Str
  content : Option Str
  deriving DecidableEq

/-- The JSON-parse oracle: the parsed envelope of a body, or the message
of the `SyntaxError` (or property-access `TypeError`) it throws. -/
abbrev JsonOracle := Str → Except Str JsMessage

/-- The wall clock: `(Date.now(), new Date().toISOString())` for the
record at the given position. -/
abbrev Clock := Nat → Nat × Str

/-- The `TypeError` message thrown by `message.content.split` when
`content` is `undefined`. -/
def undefinedContentMsg : Str :=
  "Cannot read properties of undefined".data

/-- One per-record parse entry logged into `parseErrors`. -/
structure ParseErrorEntry where
  messageId : Str
  error : Str
  deriving DecidableEq

/-- The body of the per-record `try` (lines 211–228): JSON-parse the
body, parse the content, build the item; any throw is caught and
recorded with the record's `messageId`. -/
def parseRecord (jsonParse : JsonOracle) (clock : Clock) (i : Nat)
    (r : QueueRecord) : Except ParseErrorEntry Item :=
  match jsonParse r.body with
  | .error e => .error ⟨r.messageId, e⟩
  | .ok m =>
    match m.content with
    | none => .error ⟨r.messageId, undefinedContentMsg⟩
    | some c =>
      let t := clock i
      .ok (createDynamoItem m.title c t.1 t.2 (parseJiraContent c))

/-- The parse loop of lines 207–229: items and parse errors, each in
input order; a failing record lands in the error list and never aborts
the loop. -/
def parsePhase (jsonParse : JsonOracle) (clock : Clock) :
    Nat → List QueueRecord → List Item × List ParseErrorEntry
  | _, [] => ([], [])
  | i, r :: rs =>
    let rest := parsePhase jsonParse clock (i + 1) rs
    match parseRecord jsonParse clock i r with
    | .ok item => (item :: rest.1, rest.2)
    | .error e => (rest.1, e :: rest.2)

/-- `items.slice(-k)` for a positive `k`: the positional tail slice. -/
def sliceNeg (l : List α) (k : Int) : List α :=
  l.drop (l.length - k.toNat)

/-- `item.issueId` read back from a record object (string-coerced
`undefined` when absent, which cannot happen for built records). -/
def itemIssueId (item : Item) : Str :=
  match getK item "issueId".data with
  | some (some s) => s
  | some none => "undefined".data
  | none => "undefined".data

/-- The `finalResults` object of lines 253–258. -/
structure FinalResults where
  totalProcessed : Nat
  batchResults : BatchResults
  fallbackResults : Option BatchResults
  parseErrors : Option (List ParseErrorEntry)
  deriving DecidableEq

/-- The JSON body of a handler response; exactly one of the three
shapes of lines 234, 264 and 280 is populated. -/
structure HandlerBody where
  message : Str
  results : Option FinalResults
  parseErrors : Option (List ParseErrorEntry)
  error : Option Str
  deriving DecidableEq

/-- `{ statusCode, body }`. -/
structure HandlerResponse where
  statusCode : Nat
  body : HandlerBody
  deriving DecidableEq

/-- Everything the handler sent to the store: the batch writer's chunk
traces and the items handed to the fallback writer (one put each). -/
structure StoreTrace where
  batchTraces : List (ChunkTrace Item)
  fallbackCalls : List Item
  deriving DecidableEq

/-- The `try` block of lines 205–268: parse everything; with no valid
items return 400 without touching the store; otherwise batch-write, and
when `failed > 0` fallback-write the positional tail slice
`items.slice(-batchResults.failed)`. -/
def handlerTry (jsonParse : JsonOracle) (clock : Clock) (store : Store Item)
    (put : PutStore Item) (records : List QueueRecord) :
    Except Str (HandlerResponse × StoreTrace) :=
  let parsed := parsePhase jsonParse clock 0 records
  let items := parsed.1
  let parseErrors := parsed.2
  if items.length = 0 then
    .ok (⟨400, ⟨"No valid items to process".data, none, some parseErrors, none⟩⟩,
         ⟨[], []⟩)
  else
    let bw := batchWriteToDynamoDB store items
    let batchResults := bw.1
    if 0 < batchResults.failed then
      let failedItems := sliceNeg items batchResults.failed
      let fb := fallbackIndividualWrite put itemIssueId failedItems
      .ok (⟨200, ⟨"Processing complete".data,
             some ⟨items.length, batchResults, some fb,
                   if 0 < parseErrors.length then some parseErrors else none⟩,
             none, none⟩⟩,
           ⟨bw.2.1, failedItems⟩)
    else
      .ok (⟨200, ⟨"Processing complete".data,
             some ⟨items.length, batchResults, none,
                   if 0 < parseErrors.length then some parseErrors else none⟩,
             none, none⟩⟩,
           ⟨bw.2.1, []⟩)

/-- `exports.handler`: the `try` block wrapped in the top-level `catch`
of lines 270–285, which converts any escaped error into a 500 response
instead of re-throwing (the comment on line 277: do not throw, to avoid
infinite SQS retries). -/
def handler (jsonParse : JsonOracle) (clock : Clock) (store : Store Item)
    (put : PutStore Item) (records : List QueueRecord) :
    HandlerResponse × StoreTrace :=
  match handlerTry jsonParse clock store put records with
  | .ok r => r
  | .error e =>
    (⟨500, ⟨"Processing failed".data, none, none, some e⟩⟩, ⟨[], []⟩)

/-! ## Lemmas about the JS-object model -/

theorem find?_map_hit {α : Type} (o : List (Str × α)) (k : Str) (v : α)
    (h : o.any (fun p => p.1 == k) = true) :
    (o.map (fun p => if p.1 == k then (k, v) else p)).find? (fun p => p.1 == k)
      = some (k, v) := by
  induction o with
  | nil => exact Bool.noConfusion h
  | cons p os ih =>
    by_cases hp : p.1 = k
    · rw [List.map_cons, if_pos (beq_iff_eq.mpr hp), List.find?_cons_of_pos _ (by simp)]
    · have hp' : (p.1 == k) = false := beq_eq_false_iff_ne.mpr hp
      rw [List.any_cons, hp', Bool.false_or] at h
      rw [List.map_cons, if_neg (by simp [hp]), List.find?_cons_of_neg _ (by simp [hp]), ih h]

theorem find?_none_of_any_false {α : Type} (o : List (Str × α)) (k : Str)
    (h : o.any (fun p => p.1 == k) = false) :
    o.find? (fun p => p.1 == k) = none := by
  induction o with
  | nil => rfl
  | cons p os ih =>
    rw [List.any_cons, Bool.or_eq_false_iff] at h
    rw [List.find?_cons_of_neg _ (by simp [h.1]), ih h.2]

theorem find?_map_ne {α : Type} (o : List (Str × α)) (k k' : Str) (v : α)
    (h : k' ≠ k) :
    (o.map (fun p => if p.1 == k then (k, v) else p)).find? (fun p => p.1 == k')
      = o.find? (fun p => p.1 == k') := by
  induction o with
  | nil => rfl
  | cons p os ih =>
    by_cases hp : p.1 = k
    · rw [List.map_cons, if_pos (beq_iff_eq.mpr hp),
        List.find?_cons_of_neg _ (by simp [Ne.symm h]),
        List.find?_cons_of_neg _ (by simp [hp, Ne.symm h]), ih]
    · rw [List.map_cons, if_neg (by simp [hp])]
      by_cases hq : p.1 = k'
      · rw [List.find?_cons_of_pos _ (by simp [hq]),
          List.find?_cons_of_pos _ (by simp [hq])]
      · rw [List.find?_cons_of_neg _ (by simp [hq]),
          List.find?_cons_of_neg _ (by simp [hq]), ih]

theorem getK_setK_self {α : Type} (o : List (Str × α)) (k : Str) (v : α) :
    getK (setK o k v) k = some v := by
  unfold getK setK
  by_cases h : o.any (fun p => p.1 == k) = true
  · rw [if_pos h, find?_map_hit o k v h]
    rfl
  · rw [if_neg h, List.find?_append,
      find?_none_of_any_false o k (Bool.eq_false_iff.mpr h)]
    simp [List.find?]

theorem getK_setK_ne {α : Type} (o : List (Str × α)) (k k' : Str) (v : α)
    (h : k' ≠ k) :
    getK (setK o k v) k' = getK o k' := by
  unfold getK setK
  by_cases ha : o.any (fun p => p.1 == k) = true
  · rw [if_pos ha, find?_map_ne o k k' v h]
  · rw [if_neg ha, List.find?_append]
    cases hfind : o.find? (fun p => p.1 == k') with
    | some x => simp [hfind]
    | none => simp [hfind, List.find?, beq_eq_false_iff_ne.mpr (Ne.symm h)]

/-- The key list of an object. -/
def keysOf (o : List (Str × α)) : List Str := o.map Prod.fst

theorem keysOf_setK_mem {α : Type} (o : List (Str × α)) (k : Str) (v : α)
    (h : o.any (fun p => p.1 == k) = true) :
    keysOf (setK o k v) = keysOf o := by
  unfold keysOf setK
  rw [if_pos h, List.map_map]
  apply List.map_congr_left
  intro p _
  by_cases hp : p.1 = k
  · simp [hp]
  · simp [hp]

theorem keysOf_setK_not_mem {α : Type} (o : List (Str × α)) (k : Str) (v : α)
    (h : ¬ o.any (fun p => p.1 == k) = true) :
    keysOf (setK o k v) = keysOf o ++ [k] := by
  unfold keysOf setK
  rw [if_neg h, List.map_append]
  rfl

theorem any_key_iff_mem {α : Type} (o : List (Str × α)) (k : Str) :
    o.any (fun p => p.1 == k) = true ↔ k ∈ keysOf o := by
  unfold keysOf
  rw [List.any_eq_true]
  constructor
  · rintro ⟨p, hmem, hbeq⟩
    exact (beq_iff_eq.mp hbeq) ▸ (List.mem_map_of_mem Prod.fst hmem)
  · rintro hk
    obtain ⟨p, hmem, hfst⟩ := List.mem_map.mp hk
    exact ⟨p, hmem, beq_iff_eq.mpr hfst⟩

theorem getK_eq_none_iff {α : Type} (o : List (Str × α)) (k : Str) :
    getK o k = none ↔ k ∉ keysOf o := by
  unfold getK
  rw [Option.map_eq_none', List.find?_eq_none]
  constructor
  · intro h hk
    obtain ⟨p, hmem, hfst⟩ := List.mem_map.mp hk
    exact absurd (beq_iff_eq.mpr hfst) (by simpa using h p hmem)
  · intro h p hmem
    intro hbeq
    exact h (beq_iff_eq.mp hbeq ▸ List.mem_map_of_mem Prod.fst hmem)


theorem getK_foldl_setK_not_mem {α β : Type} (g : β → α)
    (kvs : List (Str × β)) (base : List (Str × α)) (k : Str)
    (h : k ∉ keysOf kvs) :
    getK (kvs.foldl (fun o p => setK o p.1 (g p.2)) base) k = getK base k := by
  induction kvs generalizing base with
  | nil => rfl
  | cons p rest ih =>
    have hk : k ∉ keysOf rest := fun hm => h (List.mem_cons_of_mem _ hm)
    have hne : k ≠ p.1 := fun he => h (he ▸ List.mem_cons_self _ _)
    rw [List.foldl_cons, ih _ hk, getK_setK_ne _ _ _ _ hne]

theorem getK_foldl_setK_mem {α β : Type} (g : β → α)
    (kvs : List (Str × β)) (base : List (Str × α)) (k : Str) (v : β)
    (hnd : (keysOf kvs).Nodup) (hmem : (k, v) ∈ kvs) :
    getK (kvs.foldl (fun o p => setK o p.1 (g p.2)) base) k = some (g v) := by
  induction kvs generalizing base with
  | nil => cases hmem
  | cons p rest ih =>
    rw [keysOf, List.map_cons, List.nodup_cons] at hnd
    rcases List.mem_cons.mp hmem with heq | hrest
    · subst heq
      rw [List.foldl_cons,
        getK_foldl_setK_not_mem g rest _ k hnd.1, getK_setK_self]
    · have hk : k ∈ keysOf rest :=
        (List.mem_map.mpr ⟨(k, v), hrest, rfl⟩)
      exact List.foldl_cons _ _ ▸ ih _ hnd.2 hrest

theorem getK_eq_some_mem {α : Type} (o : List (Str × α)) (k : Str) (v : α)
    (h : getK o k = some v) : (k, v) ∈ o := by
  unfold getK at h
  obtain ⟨q, hfind, hv⟩ := Option.map_eq_some'.mp h
  have hmem := List.mem_of_find?_eq_some hfind
  have hb := List.find?_some hfind
  have hfst : q.1 = k := by exact beq_iff_eq.mp hb
  have hq : q = (k, v) := Prod.ext hfst hv
  exact hq ▸ hmem

theorem canonical_not_in_filtered (pf : List (Str × Str)) (k : Str)
    (h : k ∈ canonicalParsedKeys) :
    k ∉ keysOf (pf.filter (fun p => !(canonicalParsedKeys.contains p.1))) := by
  intro hk
  obtain ⟨p, hmem, hfst⟩ := List.mem_map.mp hk
  have hpred := List.of_mem_filter hmem
  rw [hfst, Bool.not_eq_eq_eq_not, Bool.not_true] at hpred
  exact absurd ((List.elem_iff).mpr h) (by simp [List.contains] at hpred; simp [hpred])



/-! ## C3 — extension-attribute merging in the Record Builder -/

/-- C3 (amended): every extension attribute (a parsed key outside the six
canonical names) is merged into the produced Record, and on a name
collision the extension attribute — not the canonical field — takes
precedence, because the object spread sits after the canonical fields;
the six canonical parsed keys themselves are excluded from the merge, so
the summary/priority/creator/status/assignee fields are never
overwritten.  `Nodup` models that a JS object has no duplicate keys. -/
theorem createDynamoItem_extension_merge (title : Option Str) (content : Str)
    (nowMs : Nat) (nowISO : Str) (pf : List (Str × Str))
    (hnd : (keysOf pf).Nodup) :
    (∀ k v, k ∉ canonicalParsedKeys → getK pf k = some v →
      getK (createDynamoItem title content nowMs nowISO pf) k = some (some v)) ∧
    getK (createDynamoItem title content nowMs nowISO pf) "summary".data
      = some (getK pf "summary".data) ∧
    getK (createDynamoItem title content nowMs nowISO pf) "priority".data
      = some (getK pf "priority".data) ∧
    getK (createDynamoItem title content nowMs nowISO pf) "creator".data
      = some (getK pf "creator".data) ∧
    getK (createDynamoItem title content nowMs nowISO pf) "status".data
      = some (getK pf "status".data) ∧
    getK (createDynamoItem title content nowMs nowISO pf) "assignee".data
      = some (getK pf "assignee".data) := by
  have hsub : (keysOf (pf.filter
      (fun p => !(canonicalParsedKeys.contains p.1)))).Nodup := by
    apply List.Nodup.sublist _ hnd
    exact List.Sublist.map Prod.fst (List.filter_sublist pf)
  refine ⟨?_, ?_, ?_, ?_, ?_, ?_⟩
  · intro k v hk hget
    have hmem : (k, v) ∈ pf := getK_eq_some_mem pf k v hget
    have hpred : (!(canonicalParsedKeys.contains k)) = true := by
      simp [List.contains, List.elem_iff, hk]
    have hmemf : (k, v) ∈ pf.filter
        (fun p => !(canonicalParsedKeys.contains p.1)) :=
      List.mem_filter.mpr ⟨hmem, hpred⟩
    simp only [createDynamoItem]
    rw [getK_foldl_setK_mem some _ _ k v hsub hmemf]
  · simp only [createDynamoItem]
    rw [getK_foldl_setK_not_mem some _ _ _
      (canonical_not_in_filtered pf _ (by decide))]
    rfl
  · simp only [createDynamoItem]
    rw [getK_foldl_setK_not_mem some _ _ _
      (canonical_not_in_filtered pf _ (by decide))]
    rfl
  · simp only [createDynamoItem]
    rw [getK_foldl_setK_not_mem some _ _ _
      (canonical_not_in_filtered pf _ (by decide))]
    rfl
  · simp only [createDynamoItem]
    rw [getK_foldl_setK_not_mem some _ _ _
      (canonical_not_in_filtered pf _ (by decide))]
    rfl
  · simp only [createDynamoItem]
    rw [getK_foldl_setK_not_mem some _ _ _
      (canonical_not_in_filtered pf _ (by decide))]
    rfl

/-- C3 counterexample: the claim as stated — canonical fields take
precedence over colliding extension attributes — is false: parsing
`"timestamp: BOGUS"` yields the extension attribute `timestamp`, and the
built record's `timestamp` is `"BOGUS"`, not the canonical processing
instant `"2025-01-01"`. -/
theorem createDynamoItem_timestamp_overwritten :
    getK (createDynamoItem (some "T".data) "timestamp: BOGUS".data 5
        "2025-01-01".data (parseJiraContent "timestamp: BOGUS".data))
      "timestamp".data = some (some "BOGUS".data) ∧
    some (some "BOGUS".data) ≠ some (some ("2025-01-01".data : Str)) := by
  constructor
  · decide
  · decide

/-- Witness for C3 (amended) at a concrete input. -/
theorem createDynamoItem_extension_merge_witness :
    getK (createDynamoItem none [] 0 "T".data [("x".data, "1".data)]) "x".data
      = some (some "1".data) ∧
    getK (createDynamoItem none [] 0 "T".data [("x".data, "1".data)])
      "summary".data = some none := by
  have h := createDynamoItem_extension_merge none [] 0 "T".data
      [("x".data, "1".data)] (by decide)
  refine ⟨h.1 "x".data "1".data (by decide) (by decide), ?_⟩
  have h2 := h.2.1
  rw [h2]
  decide


/-! ## Lemmas toward C7: parser keys never collide with the record key of the issue id -/

theorem toNat_ofNat_valid (m : Nat) (h : m.isValidChar) :
    (Char.ofNat m).toNat = m := by
  rw [Char.ofNat, dif_pos h]
  rfl

theorem toLower_ne_upper_I : ∀ c : Char, Char.toLower c ≠ 'I' := by
  intro c h
  unfold Char.toLower at h
  by_cases hcond : c.toNat ≥ 65 ∧ c.toNat ≤ 90
  · rw [if_pos hcond] at h
    have hval : (c.toNat + 32).isValidChar := by
      constructor
      omega
    have hv := toNat_ofNat_valid (c.toNat + 32) hval
    rw [h] at hv
    have h73 : ('I').toNat = 73 := by decide
    omega
  · rw [if_neg hcond] at h
    subst h
    have h73 : ('I').toNat = 73 := by decide
    omega

theorem upper_I_not_mem_toLowerChars (s : Str) : 'I' ∉ toLowerChars s := by
  intro hmem
  obtain ⟨c, _, hc⟩ := List.mem_map.mp hmem
  exact toLower_ne_upper_I c hc

theorem toLowerChars_ne_issueId (s : Str) : toLowerChars s ≠ "issueId".data := by
  intro h
  have : 'I' ∈ toLowerChars s := by
    rw [h]
    decide
  exact upper_I_not_mem_toLowerChars s this

theorem keysOf_parseLine_cases (f : List (Str × Str)) (l : Str) (k : Str)
    (hk : k ∈ keysOf (parseLine f l)) :
    k ∈ keysOf f ∨ k ∈ canonicalParsedKeys ∨ ∃ s, k = toLowerChars s := by
  have hsetk : ∀ (k' : Str) (v : Str),
      k ∈ keysOf (setK f k' v) → k ∈ keysOf f ∨ k = k' := by
    intro k' v hm
    by_cases hany : f.any (fun p => p.1 == k') = true
    · rw [keysOf_setK_mem f k' v hany] at hm
      exact Or.inl hm
    · rw [keysOf_setK_not_mem f k' v hany] at hm
      rcases List.mem_append.mp hm with h1 | h2
      · exact Or.inl h1
      · exact Or.inr (List.mem_singleton.mp h2)
  unfold parseLine at hk
  split at hk
  · exact Or.inl hk
  · split at hk
    · simp only [] at hk
      split at hk
      · rcases hsetk _ _ hk with h | h
        · exact Or.inl h
        · exact Or.inr (Or.inl (by rw [h]; decide))
      · split at hk
        · rcases hsetk _ _ hk with h | h
          · exact Or.inl h
          · exact Or.inr (Or.inl (by rw [h]; decide))
        · split at hk
          · rcases hsetk _ _ hk with h | h
            · exact Or.inl h
            · exact Or.inr (Or.inl (by rw [h]; decide))
          · split at hk
            · rcases hsetk _ _ hk with h | h
              · exact Or.inl h
              · exact Or.inr (Or.inl (by rw [h]; decide))
            · split at hk
              · rcases hsetk _ _ hk with h | h
                · exact Or.inl h
                · exact Or.inr (Or.inl (by rw [h]; decide))
              · split at hk
                · rcases hsetk _ _ hk with h | h
                  · exact Or.inl h
                  · exact Or.inr (Or.inl (by rw [h]; decide))
                · rcases hsetk _ _ hk with h | h
                  · exact Or.inl h
                  · exact Or.inr (Or.inr ⟨_, h⟩)
    · exact Or.inl hk

theorem issueId_not_key_of_parse (content : Str) :
    "issueId".data ∉ keysOf (parseJiraContent content) := by
  unfold parseJiraContent
  generalize (splitOnChar '\n' content) = lines
  have hgen : ∀ (ls : List Str) (f : List (Str × Str)),
      "issueId".data ∉ keysOf f → "issueId".data ∉ keysOf (ls.foldl parseLine f) := by
    intro ls
    induction ls with
    | nil => intro f hf; exact hf
    | cons l ls ih =>
      intro f hf
      apply ih
      intro hk
      rcases keysOf_parseLine_cases f l _ hk with h | h | ⟨s, hs⟩
      · exact hf h
      · revert h; decide
      · exact toLowerChars_ne_issueId s hs.symm
  exact hgen lines [] (by decide)



theorem digitChar_isDigit (m : Nat) (h : m < 10) :
    (Nat.digitChar m).isDigit = true := by
  interval_cases m <;> decide

theorem toDigitsCore_all_digits (fuel : Nat) :
    ∀ (n : Nat) (acc : List Char), n < fuel →
      acc.all Char.isDigit = true →
      ((Nat.toDigitsCore 10 fuel n acc).all Char.isDigit = true ∧
       Nat.toDigitsCore 10 fuel n acc ≠ []) := by
  induction fuel with
  | zero => intro n acc h; omega
  | succ f ih =>
    intro n acc hn hacc
    unfold Nat.toDigitsCore
    have hd : (Nat.digitChar (n % 10)).isDigit = true :=
      digitChar_isDigit _ (Nat.mod_lt n (by omega))
    by_cases hz : n / 10 = 0
    · rw [if_pos hz]
      exact ⟨by simp [List.all_cons, hd, hacc], by simp⟩
    · rw [if_neg hz]
      apply ih
      · have h10 : 0 < n := by
          by_contra hc
          push_neg at hc
          interval_cases n
          simp at hz
        have := Nat.div_lt_self h10 (by omega : 1 < 10)
        omega
      · simp [List.all_cons, hd, hacc]

theorem jsToString_digits (n : Nat) :
    (jsToString n).all Char.isDigit = true ∧ jsToString n ≠ [] := by
  have h : jsToString n = Nat.toDigitsCore 10 (n + 1) n [] := rfl
  rw [h]
  exact toDigitsCore_all_digits (n + 1) n [] (by omega) (by decide)

/-! ## C7 — issue id selection in the Record Builder -/

/-- C7 (amended): if the parsed `issueKey` is absent *or empty* (JS `||`
treats the empty string as falsy), the built record's `issueId` is the
generated fallback `unknown-` followed by the decimal digits of the
arrival epoch milliseconds; for a present non-empty `issueKey` the
`issueId` equals it exactly.  The last conjuncts show the appended
millisecond rendering is a non-empty all-digit string, i.e. the fallback
matches the pattern `unknown-<digits>`. -/
theorem createDynamoItem_issueId_policy (title : Option Str) (content : Str)
    (nowMs : Nat) (nowISO : Str) :
    ((getK (parseJiraContent content) "issueKey".data = none ∨
      getK (parseJiraContent content) "issueKey".data = some []) →
      getK (createDynamoItem title content nowMs nowISO
          (parseJiraContent content)) "issueId".data
        = some (some ("unknown-".data ++ jsToString nowMs))) ∧
    (∀ s, s ≠ [] →
      getK (parseJiraContent content) "issueKey".data = some s →
      getK (createDynamoItem title content nowMs nowISO
          (parseJiraContent content)) "issueId".data = some (some s)) ∧
    (jsToString nowMs).all Char.isDigit = true ∧ jsToString nowMs ≠ [] := by
  have hnotkey : "issueId".data ∉ keysOf
      ((parseJiraContent content).filter
        (fun p => !(canonicalParsedKeys.contains p.1))) := by
    intro hmem
    apply issueId_not_key_of_parse content
    have hsub : List.Sublist (keysOf ((parseJiraContent content).filter
        (fun p => !(canonicalParsedKeys.contains p.1))))
        (keysOf (parseJiraContent content)) :=
      List.Sublist.map Prod.fst (List.filter_sublist _)
    exact hsub.mem hmem
  refine ⟨?_, ?_, (jsToString_digits nowMs).1, (jsToString_digits nowMs).2⟩
  · intro hget
    simp only [createDynamoItem]
    rw [getK_foldl_setK_not_mem some _ _ _ hnotkey]
    rcases hget with hget | hget
    · rw [hget]
      rfl
    · rw [hget]
      rfl
  · intro s hs hget
    simp only [createDynamoItem]
    rw [getK_foldl_setK_not_mem some _ _ _ hnotkey, hget]
    cases s with
    | nil => exact absurd rfl hs
    | cons a as => rfl

/-- C7 counterexample: the claim as stated is false when `issueKey` is
present but empty: for the content `"Key:"` the parsed `issueKey` is the
present empty string, yet `issueId` is the fallback `unknown-42`, not an
exact copy of the (empty) `issueKey`. -/
theorem createDynamoItem_empty_issueKey_counterexample :
    getK (parseJiraContent "Key:".data) "issueKey".data = some [] ∧
    getK (createDynamoItem none "Key:".data 42 "T".data
        (parseJiraContent "Key:".data)) "issueId".data
      = some (some ("unknown-42".data)) ∧
    some (some ("unknown-42".data)) ≠ some (some ([] : Str)) := by
  refine ⟨by decide, by decide, by decide⟩

/-- Witness for C7 (amended), exercising both the fallback branch and
the exact-copy branch at concrete inputs. -/
theorem createDynamoItem_issueId_policy_witness :
    getK (createDynamoItem none "x".data 7 "T".data
        (parseJiraContent "x".data)) "issueId".data
      = some (some ("unknown-7".data)) ∧
    getK (createDynamoItem none "Key: A-1".data 7 "T".data
        (parseJiraContent "Key: A-1".data)) "issueId".data
      = some (some ("A-1".data)) := by
  constructor
  · have h := (createDynamoItem_issueId_policy none "x".data 7 "T".data).1
      (Or.inl (by decide))
    rw [h]
    decide
  · exact (createDynamoItem_issueId_policy none "Key: A-1".data 7 "T".data).2.1
      "A-1".data (by decide) (by decide)


/-! ## Lemmas toward C8: attribute-count bookkeeping of the parser -/

theorem lineTargetKey_isSome_iff (l : Str) :
    (lineTargetKey l).isSome = wellFormedLine l := by
  unfold lineTargetKey wellFormedLine
  cases idxOf ':' l with
  | none => rfl
  | some i =>
    by_cases h : 0 < i
    · simp only []
      rw [if_pos h]
      simp [h]
    · simp only []
      rw [if_neg h]
      simp [h]

theorem parseLine_not_wf (f : List (Str × Str)) (l : Str)
    (h : lineTargetKey l = none) : parseLine f l = f := by
  unfold lineTargetKey at h
  unfold parseLine
  cases hidx : idxOf ':' l with
  | none => rfl
  | some i =>
    rw [hidx] at h
    simp only [] at h ⊢
    by_cases hpos : 0 < i
    · rw [if_pos hpos] at h
      cases h
    · rw [if_neg hpos]

theorem parseLine_wf (f : List (Str × Str)) (l : Str) (k : Str)
    (h : lineTargetKey l = some k) : ∃ v, parseLine f l = setK f k v := by
  unfold lineTargetKey at h
  unfold parseLine
  cases hidx : idxOf ':' l with
  | none => rw [hidx] at h; cases h
  | some i =>
    rw [hidx] at h
    simp only [] at h ⊢
    by_cases hpos : 0 < i
    · rw [if_pos hpos] at h
      rw [if_pos hpos]
      have hk := Option.some.inj h
      by_cases h1 : (toLowerChars (trimChars (l.take i)) == "key".data) = true
      · rw [if_pos h1] at hk ⊢
        exact ⟨_, by rw [hk]⟩
      · rw [if_neg h1] at hk ⊢
        by_cases h2 : (toLowerChars (trimChars (l.take i)) == "summary".data) = true
        · rw [if_pos h2]
          exact ⟨_, by rw [← hk, beq_iff_eq.mp h2]⟩
        · rw [if_neg h2]
          by_cases h3 : (toLowerChars (trimChars (l.take i)) == "priority".data) = true
          · rw [if_pos h3]
            exact ⟨_, by rw [← hk, beq_iff_eq.mp h3]⟩
          · rw [if_neg h3]
            by_cases h4 : (toLowerChars (trimChars (l.take i)) == "creator".data) = true
            · rw [if_pos h4]
              exact ⟨_, by rw [← hk, beq_iff_eq.mp h4]⟩
            · rw [if_neg h4]
              by_cases h5 : (toLowerChars (trimChars (l.take i)) == "status".data) = true
              · rw [if_pos h5]
                exact ⟨_, by rw [← hk, beq_iff_eq.mp h5]⟩
              · rw [if_neg h5]
                by_cases h6 : (toLowerChars (trimChars (l.take i)) == "assignee".data) = true
                · rw [if_pos h6]
                  exact ⟨_, by rw [← hk, beq_iff_eq.mp h6]⟩
                · rw [if_neg h6]
                  exact ⟨_, by rw [hk]⟩
    · rw [if_neg hpos] at h
      cases h

theorem length_keysOf {α : Type} (o : List (Str × α)) : (keysOf o).length = o.length :=
  List.length_map o Prod.fst

theorem length_setK_le {α : Type} (o : List (Str × α)) (k : Str) (v : α) :
    (setK o k v).length ≤ o.length + 1 := by
  unfold setK
  by_cases h : o.any (fun p => p.1 == k) = true
  · rw [if_pos h, List.length_map]
    omega
  · rw [if_neg h, List.length_append]
    simp

theorem length_setK_fresh {α : Type} (o : List (Str × α)) (k : Str) (v : α)
    (h : k ∉ keysOf o) : (setK o k v).length = o.length + 1 := by
  have hany : ¬ (o.any (fun p => p.1 == k) = true) :=
    fun ha => h ((any_key_iff_mem o k).mp ha)
  unfold setK
  rw [if_neg hany, List.length_append]
  rfl

theorem length_foldl_parseLine_le (lines : List Str) :
    ∀ f : List (Str × Str),
      (lines.foldl parseLine f).length
        ≤ f.length + (lines.filter wellFormedLine).length := by
  induction lines with
  | nil => intro f; simp
  | cons l ls ih =>
    intro f
    rw [List.foldl_cons]
    cases htk : lineTargetKey l with
    | none =>
      have hwf : wellFormedLine l = false := by
        rw [← lineTargetKey_isSome_iff, htk]
        rfl
      rw [parseLine_not_wf f l htk, List.filter_cons, if_neg (by simp [hwf])]
      exact ih f
    | some k =>
      have hwf : wellFormedLine l = true := by
        rw [← lineTargetKey_isSome_iff, htk]
        rfl
      obtain ⟨v, hv⟩ := parseLine_wf f l k htk
      rw [hv, List.filter_cons, if_pos (by simp [hwf])]
      calc (ls.foldl parseLine (setK f k v)).length
        ≤ (setK f k v).length + (ls.filter wellFormedLine).length := ih _
        _ ≤ f.length + 1 + (ls.filter wellFormedLine).length := by
            have := length_setK_le f k v
            omega
        _ = f.length + (l :: ls.filter wellFormedLine).length := by
            rw [List.length_cons]
            omega



theorem filterMap_length_eq_filter_count (lines : List Str) :
    (lines.filterMap lineTargetKey).length
      = (lines.filter wellFormedLine).length := by
  induction lines with
  | nil => rfl
  | cons l ls ih =>
    rw [List.filterMap_cons, List.filter_cons]
    cases htk : lineTargetKey l with
    | none =>
      have hwf : wellFormedLine l = false := by
        rw [← lineTargetKey_isSome_iff, htk]
        rfl
      rw [if_neg (by simp [hwf])]
      exact ih
    | some k =>
      have hwf : wellFormedLine l = true := by
        rw [← lineTargetKey_isSome_iff, htk]
        rfl
      rw [if_pos (by simp [hwf]), List.length_cons, List.length_cons, ih]

theorem length_foldl_parseLine_eq (lines : List Str) :
    ∀ f : List (Str × Str),
      (lines.filterMap lineTargetKey).Nodup →
      (∀ k ∈ keysOf f, k ∉ lines.filterMap lineTargetKey) →
      (lines.foldl parseLine f).length
        = f.length + (lines.filterMap lineTargetKey).length := by
  induction lines with
  | nil => intro f _ _; simp
  | cons l ls ih =>
    intro f hnd hdisj
    rw [List.foldl_cons]
    cases htk : lineTargetKey l with
    | none =>
      rw [parseLine_not_wf f l htk]
      rw [List.filterMap_cons_none htk] at hnd hdisj ⊢
      exact ih f hnd hdisj
    | some k =>
      rw [List.filterMap_cons_some htk] at hnd hdisj ⊢
      rw [List.nodup_cons] at hnd
      obtain ⟨v, hv⟩ := parseLine_wf f l k htk
      have hfresh : k ∉ keysOf f := by
        intro hk
        exact hdisj k hk (List.mem_cons_self _ _)
      have hkeys : keysOf (parseLine f l) = keysOf f ++ [k] := by
        rw [hv]
        exact keysOf_setK_not_mem f k v
          (fun ha => hfresh ((any_key_iff_mem f k).mp ha))
      have hlen : (parseLine f l).length = f.length + 1 := by
        rw [hv]
        exact length_setK_fresh f k v hfresh
      have hdisj2 : ∀ k' ∈ keysOf (parseLine f l),
          k' ∉ ls.filterMap lineTargetKey := by
        intro k' hk'
        rw [hkeys] at hk'
        rcases List.mem_append.mp hk' with h1 | h2
        · intro hmem
          exact hdisj k' h1 (List.mem_cons_of_mem _ hmem)
        · rw [List.mem_singleton.mp h2]
          exact hnd.1
      rw [ih (parseLine f l) hnd.2 hdisj2, hlen, List.length_cons]
      omega

/-! ## C8 — attribute count of the Content Parser -/

/-- C8 (amended): parsing yields at most as many attributes as there are
well-formed `Key: Value` lines (and hence at most as many as there are
lines); the count is exactly the number of well-formed lines whenever
the normalized target keys of the lines are pairwise distinct — a
repeated key collapses onto one attribute, so the unconditional
"exactly N" of the original claim fails.  A line with no colon or with
its colon at index 0 contributes nothing. -/
theorem parseJiraContent_attribute_count (content : Str) :
    (parseJiraContent content).length
      ≤ ((splitOnChar '\n' content).filter wellFormedLine).length ∧
    ((splitOnChar '\n' content).filter wellFormedLine).length
      ≤ (splitOnChar '\n' content).length ∧
    (((splitOnChar '\n' content).filterMap lineTargetKey).Nodup →
      (parseJiraContent content).length
        = ((splitOnChar '\n' content).filter wellFormedLine).length) ∧
    (∀ (f : List (Str × Str)) (l : Str), wellFormedLine l = false →
      parseLine f l = f) := by
  refine ⟨?_, ?_, ?_, ?_⟩
  · have h := length_foldl_parseLine_le (splitOnChar '\n' content) []
    simpa [parseJiraContent] using h
  · exact List.length_filter_le _ _
  · intro hnd
    have h := length_foldl_parseLine_eq (splitOnChar '\n' content) [] hnd
      (by intro k hk; cases hk)
    rw [parseJiraContent, h, filterMap_length_eq_filter_count]
    simp
  · intro f l hwf
    apply parseLine_not_wf
    cases htk : lineTargetKey l with
    | none => rfl
    | some k =>
      have : (lineTargetKey l).isSome = true := by rw [htk]; rfl
      rw [lineTargetKey_isSome_iff, hwf] at this
      cases this

/-- C8 counterexample: the content `"a: 1\na: 2"` has two well-formed
lines but parses to a single attribute (the second assignment overwrites
the first), refuting the claimed exact equality. -/
theorem parseJiraContent_duplicate_key_counterexample :
    (parseJiraContent "a: 1\na: 2".data).length = 1 ∧
    (((splitOnChar '\n' "a: 1\na: 2".data).filter wellFormedLine).length = 2) ∧
    ¬ ((parseJiraContent "a: 1\na: 2".data).length
        = ((splitOnChar '\n' "a: 1\na: 2".data).filter wellFormedLine).length) := by
  refine ⟨by decide, by decide, by decide⟩

/-- Witness for C8 (amended) at a concrete input with distinct keys and
one malformed line. -/
theorem parseJiraContent_attribute_count_witness :
    (parseJiraContent "Key: A\nFoo: B\nbad".data).length = 2 ∧
    ((splitOnChar '\n' "Key: A\nFoo: B\nbad".data).filter wellFormedLine).length = 2 := by
  have h := (parseJiraContent_attribute_count "Key: A\nFoo: B\nbad".data).2.2.1
    (by decide)
  rw [h]
  exact ⟨by decide, by decide⟩


/-! ## Lemmas toward C1: chunking and accounting of the Batch Writer -/

theorem batchChunksAux_flatten {α : Type} (fuel : Nat) :
    ∀ l : List α, l.length ≤ fuel → (batchChunksAux fuel l).flatten = l := by
  induction fuel with
  | zero =>
    intro l h
    cases l with
    | nil => rfl
    | cons a as => simp at h
  | succ f ih =>
    intro l h
    cases l with
    | nil => rfl
    | cons a as =>
      show (((a :: as).take MAX_BATCH_SIZE) :: batchChunksAux f ((a :: as).drop MAX_BATCH_SIZE)).flatten = a :: as
      rw [List.flatten_cons,
        ih _ (by simp only [List.length_drop, List.length_cons, MAX_BATCH_SIZE] at h ⊢; omega),
        List.take_append_drop]

theorem batchChunksAux_length {α : Type} (fuel : Nat) :
    ∀ l : List α, l.length ≤ fuel →
      (batchChunksAux fuel l).length
        = (l.length + MAX_BATCH_SIZE - 1) / MAX_BATCH_SIZE := by
  induction fuel with
  | zero =>
    intro l h
    cases l with
    | nil => simp [batchChunksAux, MAX_BATCH_SIZE]
    | cons a as => simp at h
  | succ f ih =>
    intro l h
    cases l with
    | nil => simp [batchChunksAux, MAX_BATCH_SIZE]
    | cons a as =>
      show (((a :: as).take MAX_BATCH_SIZE) :: batchChunksAux f ((a :: as).drop MAX_BATCH_SIZE)).length = _
      rw [List.length_cons, ih _ (by simp only [List.length_drop, List.length_cons, MAX_BATCH_SIZE] at h ⊢; omega)]
      simp only [List.length_drop, List.length_cons, MAX_BATCH_SIZE]
      omega

theorem batchChunksAux_sizes {α : Type} (fuel : Nat) :
    ∀ l : List α, l.length ≤ fuel →
      (batchChunksAux fuel l).all
        (fun c => decide (c.length ≤ MAX_BATCH_SIZE) && !c.isEmpty) = true := by
  induction fuel with
  | zero =>
    intro l h
    cases l with
    | nil => rfl
    | cons a as => simp at h
  | succ f ih =>
    intro l h
    cases l with
    | nil => rfl
    | cons a as =>
      show ((((a :: as).take MAX_BATCH_SIZE) :: batchChunksAux f ((a :: as).drop MAX_BATCH_SIZE)).all _) = true
      rw [List.all_cons, ih _ (by simp only [List.length_drop, List.length_cons, MAX_BATCH_SIZE] at h ⊢; omega), Bool.and_true]
      have h1 : ((a :: as).take MAX_BATCH_SIZE).length ≤ MAX_BATCH_SIZE := by
        rw [List.length_take]
        omega
      have h2 : ((a :: as).take MAX_BATCH_SIZE).isEmpty = false := rfl
      rw [h2]
      simp [h1]

theorem processChunk_initial {α : Type} (store : Store α) (k : Nat) (c : List α) :
    (processChunk store k c).2.1.initial = c := by
  unfold processChunk
  cases hs : store k c with
  | err m => rfl
  | ok u0 =>
    simp only []
    cases ho : (retryLoop store u0 0 (k + 1) MAX_RETRIES).out with
    | error m => simp only [ho]
    | ok u => simp only [ho]

theorem processChunk_sum {α : Type} (store : Store α) (k : Nat) (c : List α) :
    (processChunk store k c).1.successful + (processChunk store k c).1.failed
      = (c.length : Int) := by
  unfold processChunk
  cases hs : store k c with
  | err m => simp
  | ok u0 =>
    simp only []
    cases ho : (retryLoop store u0 0 (k + 1) MAX_RETRIES).out with
    | error m => simp [ho]
    | ok u => simp [ho]

theorem batchWriteAux_sum {α : Type} (store : Store α) :
    ∀ (cs : List (List α)) (k : Nat),
      (batchWriteAux store k cs).1.successful + (batchWriteAux store k cs).1.failed
        = ((cs.flatten).length : Int) := by
  intro cs
  induction cs with
  | nil => intro k; rfl
  | cons c rest ih =>
    intro k
    show ((processChunk store k c).1.successful
        + (batchWriteAux store (processChunk store k c).2.2 rest).1.successful)
      + ((processChunk store k c).1.failed
        + (batchWriteAux store (processChunk store k c).2.2 rest).1.failed)
      = _
    have h1 := processChunk_sum store k c
    have h2 := ih (processChunk store k c).2.2
    rw [List.flatten_cons, List.length_append]
    push_cast
    push_cast at h2
    omega

theorem batchWriteAux_initials {α : Type} (store : Store α) :
    ∀ (cs : List (List α)) (k : Nat),
      (batchWriteAux store k cs).2.1.map ChunkTrace.initial = cs := by
  intro cs
  induction cs with
  | nil => intro k; rfl
  | cons c rest ih =>
    intro k
    show ((processChunk store k c).2.1
        :: (batchWriteAux store (processChunk store k c).2.2 rest).2.1).map ChunkTrace.initial = c :: rest
    rw [List.map_cons, processChunk_initial, ih]



/-! ## C1 — partitioning and accounting of the Batch Writer -/

/-- C1: for every record list (in particular every non-empty one) and
every store behavior, `successful + failed` equals the number of records
(JS subtraction semantics make this hold unconditionally), the groups
submitted as initial batched put requests are exactly the contiguous
chunks of at most `MAX_BATCH_SIZE = 25` records in input order, there
are exactly `ceil(N/25) = (N+24)/25` of them, and their concatenation
restores the input. -/
theorem batchWrite_partition_accounting {α : Type} (store : Store α)
    (items : List α) :
    (batchWriteToDynamoDB store items).1.successful
      + (batchWriteToDynamoDB store items).1.failed = (items.length : Int) ∧
    (batchWriteToDynamoDB store items).2.1.map ChunkTrace.initial
      = batchChunks items ∧
    (batchChunks items).length
      = (items.length + MAX_BATCH_SIZE - 1) / MAX_BATCH_SIZE ∧
    (batchChunks items).all
      (fun c => decide (c.length ≤ MAX_BATCH_SIZE) && !c.isEmpty) = true ∧
    (batchChunks items).flatten = items := by
  have hflat : (batchChunks items).flatten = items :=
    batchChunksAux_flatten items.length items (le_refl _)
  refine ⟨?_, ?_, ?_, ?_, hflat⟩
  · rw [batchWriteToDynamoDB, batchWriteAux_sum store (batchChunks items) 0, hflat]
  · exact batchWriteAux_initials store (batchChunks items) 0
  · exact batchChunksAux_length items.length items (le_refl _)
  · exact batchChunksAux_sizes items.length items (le_refl _)

/-! ## C2 — retry loop with exponential backoff -/

/-- C2: for a group whose initial submission returns the non-empty
unprocessed list `u0`, against a store that rejects the same items on
every attempt, the writer performs exactly `MAX_RETRIES = 3` retries,
waiting `2^attempt * 100` time units before each (delays 100, 200, 400
in sequence), resubmitting only the unprocessed items each time; the
remaining items are counted as failed, the matching count goes into
`successful`, and the descriptive message is appended to the errors. -/
theorem batchWrite_retry_exhaustion {α : Type} (store : Store α) (k : Nat)
    (chunk u0 : List α) (h0 : store k chunk = .ok u0)
    (h1 : ∀ n, store n u0 = .ok u0) (h2 : u0 ≠ []) :
    processChunk store k chunk =
      (⟨(chunk.length : Int) - (u0.length : Int), (u0.length : Int),
        [jsToString u0.length ++ " items failed after retries".data]⟩,
       ⟨chunk, [u0, u0, u0], [100, 200, 400]⟩, k + 4) := by
  have hne : u0.isEmpty = false := by
    cases u0 with
    | nil => exact absurd rfl h2
    | cons a as => rfl
  have hlen : 0 < u0.length := List.length_pos.mpr h2
  have hretry : ∀ (r : Nat) (k' : Nat),
      retryLoop store u0 r k' 3 =
        ⟨.ok u0, [2 ^ r * 100, 2 ^ (r + 1) * 100, 2 ^ (r + 2) * 100],
         [u0, u0, u0], k' + 3⟩ := by
    intro r k'
    show retryLoop store u0 r k' 3 = _
    rw [retryLoop, if_neg (by simp [hne]), h1]
    simp only []
    rw [retryLoop, if_neg (by simp [hne]), h1]
    simp only []
    rw [retryLoop, if_neg (by simp [hne]), h1]
    simp only []
    rw [retryLoop]
  unfold processChunk
  rw [h0]
  simp only []
  rw [show MAX_RETRIES = 3 from rfl, hretry 0 (k + 1)]
  simp only [if_pos hlen]
  norm_num



/-! ## C5 — hard exceptions are isolated to their group -/

/-- C5: when the submission call for the group at the head of the
remaining chunk list throws, the whole group size is added to the failed
total, the exception message is prepended to the error list, and the
remaining groups are processed exactly as they would have been —
the loop result for `c :: cs` is the error contribution for `c` merged
with the full loop result for `cs`, so the exception neither aborts the
remaining groups nor escapes the batch writer. -/
theorem batchWrite_hard_error_isolation {α : Type} (store : Store α) (k : Nat)
    (c : List α) (cs : List (List α)) (msg : Str)
    (h : store k c = .err msg) :
    batchWriteAux store k (c :: cs) =
      (⟨(batchWriteAux store (k + 1) cs).1.successful,
        (c.length : Int) + (batchWriteAux store (k + 1) cs).1.failed,
        msg :: (batchWriteAux store (k + 1) cs).1.errors⟩,
       (⟨c, [], []⟩ : ChunkTrace α) :: (batchWriteAux store (k + 1) cs).2.1,
       (batchWriteAux store (k + 1) cs).2.2) := by
  have hpc : processChunk store k c =
      (⟨0, (c.length : Int), [msg]⟩, ⟨c, [], []⟩, k + 1) := by
    unfold processChunk
    rw [h]
  simp only [batchWriteAux]
  rw [hpc]
  simp

/-- Witness for C2: a store stub rejecting the same two items on every
attempt, on a three-item group. -/
theorem batchWrite_retry_exhaustion_witness :
    processChunk
        (fun _ (l : List Nat) => SendResult.ok (l.drop (l.length - 2)))
        0 [0, 1, 2] =
      (⟨1, 2, ["2 items failed after retries".data]⟩,
       ⟨[0, 1, 2], [[1, 2], [1, 2], [1, 2]], [100, 200, 400]⟩, 4) := by
  rw [batchWrite_retry_exhaustion
    (fun _ (l : List Nat) => SendResult.ok (l.drop (l.length - 2)))
    0 [0, 1, 2] [1, 2] (by decide) (fun n => rfl) (by decide)]
  decide

/-- Witness for C5: the first group's submission throws, the second
group is still processed. -/
theorem batchWrite_hard_error_isolation_witness :
    batchWriteAux
        (fun n _ => if n = 0 then SendResult.err "boom".data
                    else SendResult.ok ([] : List Nat))
        0 [[0], [1]] =
      (⟨1, 1, ["boom".data]⟩,
       [⟨[0], [], []⟩, ⟨[1], [], []⟩], 2) := by
  rw [batchWrite_hard_error_isolation
    (fun n _ => if n = 0 then SendResult.err "boom".data
                else SendResult.ok ([] : List Nat))
    0 [0] [[1]] "boom".data (by decide)]
  decide

theorem filter_length_partition {β : Type} (p : β → Bool) (ws : List β) :
    (ws.filter p).length + (ws.filter (fun w => !p w)).length = ws.length := by
  induction ws with
  | nil => rfl
  | cons w rest ih =>
    by_cases hw : p w
    · rw [List.filter_cons, if_pos (by simp [hw]),
        List.filter_cons, if_neg (by simp [hw])]
      simp only [List.length_cons]
      omega
    · rw [List.filter_cons, if_neg (by simp [hw]),
        List.filter_cons, if_pos (by simp [hw])]
      simp only [List.length_cons]
      omega

theorem fallbackFold_spec (ws : List WriteResult) :
    ∀ r : BatchResults,
      ws.foldl
        (fun r w =>
          if w.success then
            { r with successful := r.successful + 1 }
          else
            { r with failed := r.failed + 1,
                     errors := r.errors ++ [w.issueId ++ ": ".data ++ w.error.getD []] })
        r
      = ⟨r.successful + ((ws.filter (fun w => w.success)).length : Int),
         r.failed + ((ws.filter (fun w => !w.success)).length : Int),
         r.errors ++ (ws.filter (fun w => !w.success)).map
           (fun w => w.issueId ++ ": ".data ++ w.error.getD [])⟩ := by
  induction ws with
  | nil => intro r; simp
  | cons w rest ih =>
    intro r
    rw [List.foldl_cons]
    by_cases hw : w.success
    · rw [if_pos hw, ih]
      rw [List.filter_cons, if_pos (by simp [hw]),
        List.filter_cons, if_neg (by simp [hw])]
      simp only [List.length_cons]
      congr 1
      push_cast
      ring
    · rw [if_neg hw, ih]
      rw [List.filter_cons, if_neg (by simp [hw]),
        List.filter_cons, if_pos (by simp [hw])]
      simp only [List.length_cons, List.map_cons, BatchResults.mk.injEq]
      refine ⟨by simp, by push_cast; ring, by simp⟩

theorem fallbackWrites_length {α : Type} (put : PutStore α)
    (issueIdOf : α → Str) (items : List α) :
    ∀ j, (fallbackWrites put issueIdOf j items).length = items.length := by
  induction items with
  | nil => intro j; rfl
  | cons a as ih =>
    intro j
    simp only [fallbackWrites, List.length_cons, ih]

theorem fallbackWrites_getElem {α : Type} (put : PutStore α)
    (issueIdOf : α → Str) (items : List α) :
    ∀ (j i : Nat),
      (fallbackWrites put issueIdOf j items)[i]?
        = (items[i]?).map (fun a => singleWrite put issueIdOf (j + i) a) := by
  induction items with
  | nil => intro j i; simp [fallbackWrites]
  | cons a as ih =>
    intro j i
    cases i with
    | zero => simp [fallbackWrites]
    | succ i =>
      simp only [fallbackWrites, List.getElem?_cons_succ, ih (j + 1) i]
      congr 1
      funext x
      congr 1
      omega



/-! ## C6 — per-item accounting of the Fallback Writer -/

/-- C6: the fallback writer settles exactly one `WriteResult` per input
record (same length, and the result at every position is the
`singleWrite` of the item at that position, depending only on that
item's own put outcome — so one item's exception never affects another's
outcome, and the writer, a total function, never propagates it);
`successful + failed` equals the input length, `successful` counts the
fulfilled successes, `failed` counts the failures, and each failure
contributes one error entry tagged `issueId: message`. -/
theorem fallbackIndividualWrite_accounting {α : Type} (put : PutStore α)
    (issueIdOf : α → Str) (items : List α) :
    (fallbackIndividualWrite put issueIdOf items).successful
      + (fallbackIndividualWrite put issueIdOf items).failed
      = (items.length : Int) ∧
    (fallbackIndividualWrite put issueIdOf items).successful
      = (((fallbackWrites put issueIdOf 0 items).filter
          (fun w => w.success)).length : Int) ∧
    (fallbackIndividualWrite put issueIdOf items).failed
      = (((fallbackWrites put issueIdOf 0 items).filter
          (fun w => !w.success)).length : Int) ∧
    (fallbackIndividualWrite put issueIdOf items).errors
      = ((fallbackWrites put issueIdOf 0 items).filter
          (fun w => !w.success)).map
          (fun w => w.issueId ++ ": ".data ++ w.error.getD []) ∧
    (fallbackWrites put issueIdOf 0 items).length = items.length ∧
    (∀ i : Nat, (fallbackWrites put issueIdOf 0 items)[i]?
      = (items[i]?).map (fun a => singleWrite put issueIdOf i a)) := by
  have hfold := fallbackFold_spec (fallbackWrites put issueIdOf 0 items) ⟨0, 0, []⟩
  have hw : fallbackIndividualWrite put issueIdOf items
      = ⟨(((fallbackWrites put issueIdOf 0 items).filter
            (fun w => w.success)).length : Int),
         (((fallbackWrites put issueIdOf 0 items).filter
            (fun w => !w.success)).length : Int),
         ((fallbackWrites put issueIdOf 0 items).filter
            (fun w => !w.success)).map
            (fun w => w.issueId ++ ": ".data ++ w.error.getD [])⟩ := by
    unfold fallbackIndividualWrite
    rw [hfold]
    simp
  refine ⟨?_, by rw [hw], by rw [hw], by rw [hw],
    fallbackWrites_length put issueIdOf items 0, ?_⟩
  · rw [hw]
    have := filter_length_partition (fun w => w.success)
      (fallbackWrites put issueIdOf 0 items)
    have hlen := fallbackWrites_length put issueIdOf items 0
    simp only []
    omega
  · intro i
    have := fallbackWrites_getElem put issueIdOf items 0 i
    simpa using this



theorem parsePhase_length (jsonParse : JsonOracle) (clock : Clock) :
    ∀ (rs : List QueueRecord) (i : Nat),
      (parsePhase jsonParse clock i rs).1.length
        + (parsePhase jsonParse clock i rs).2.length = rs.length := by
  intro rs
  induction rs with
  | nil => intro i; rfl
  | cons r rest ih =>
    intro i
    unfold parsePhase
    cases parseRecord jsonParse clock i r with
    | ok item =>
      simp only [List.length_cons]
      have := ih (i + 1)
      omega
    | error e =>
      simp only [List.length_cons]
      have := ih (i + 1)
      omega

theorem handlerTry_statusCodes (jsonParse : JsonOracle) (clock : Clock)
    (store : Store Item) (put : PutStore Item) (records : List QueueRecord)
    (r : HandlerResponse × StoreTrace)
    (h : handlerTry jsonParse clock store put records = .ok r) :
    r.1.statusCode = 400 ∨ r.1.statusCode = 200 := by
  unfold handlerTry at h
  simp only [] at h
  split at h
  · cases h
    exact Or.inl rfl
  · split at h
    · cases h
      exact Or.inr rfl
    · cases h
      exact Or.inr rfl

/-! ## C10 — the top-level catch never re-raises -/

/-- C10: the handler is a total function into structured responses (in
the embedding every throw site is an oracle outcome, each caught where
the source catches it), its status code is always one of 200, 400, 500,
and it is literally the `try` body wrapped by the top-level catch that
converts an escaped error message into the 500-shaped body of lines
278–284 instead of re-raising it. -/
theorem handler_never_throws (jsonParse : JsonOracle) (clock : Clock)
    (store : Store Item) (put : PutStore Item) (records : List QueueRecord) :
    ((handler jsonParse clock store put records).1.statusCode = 200 ∨
     (handler jsonParse clock store put records).1.statusCode = 400 ∨
     (handler jsonParse clock store put records).1.statusCode = 500) ∧
    handler jsonParse clock store put records
      = (match handlerTry jsonParse clock store put records with
         | .ok r => r
         | .error e =>
           (⟨500, ⟨"Processing failed".data, none, none, some e⟩⟩, ⟨[], []⟩)) := by
  refine ⟨?_, rfl⟩
  unfold handler
  cases h : handlerTry jsonParse clock store put records with
  | ok r =>
    rcases handlerTry_statusCodes jsonParse clock store put records r h with h4 | h2
    · exact Or.inr (Or.inl h4)
    · exact Or.inl h2
  | error e => exact Or.inr (Or.inr rfl)

/-! ## C9 — no valid records: 400 and no store call -/

/-- C9: when parsing yields no valid item (e.g. every body is invalid
JSON), the handler returns status 400, its body carries the parse-error
list — which then has exactly one entry per input record — and the store
trace is empty: no batch or fallback call occurs.  The last conjunct is
the no-abort accounting for every input: each record lands in exactly
one of the item list or the parse-error list, so one failing message
never suppresses the processing of the others. -/
theorem handler_no_valid_items (jsonParse : JsonOracle) (clock : Clock)
    (store : Store Item) (put : PutStore Item) (records : List QueueRecord)
    (hempty : (parsePhase jsonParse clock 0 records).1 = []) :
    (handler jsonParse clock store put records).1.statusCode = 400 ∧
    (handler jsonParse clock store put records).1.body.parseErrors
      = some (parsePhase jsonParse clock 0 records).2 ∧
    (handler jsonParse clock store put records).2 = ⟨[], []⟩ ∧
    (parsePhase jsonParse clock 0 records).2.length = records.length ∧
    (∀ (rs : List QueueRecord) (i : Nat),
      (parsePhase jsonParse clock i rs).1.length
        + (parsePhase jsonParse clock i rs).2.length = rs.length) := by
  have h0 : (parsePhase jsonParse clock 0 records).1.length = 0 := by
    rw [hempty]
    rfl
  have hrun : handler jsonParse clock store put records
      = (⟨400, ⟨"No valid items to process".data, none,
            some (parsePhase jsonParse clock 0 records).2, none⟩⟩, ⟨[], []⟩) := by
    unfold handler handlerTry
    simp only []
    rw [if_pos h0]
  have hcount := parsePhase_length jsonParse clock records 0
  refine ⟨by rw [hrun], by rw [hrun], by rw [hrun], by omega,
    parsePhase_length jsonParse clock⟩


/-! ## C4 — fallback selection is a positional tail slice -/

/-- C4: when the batch writer reports `failed = K > 0`, the fallback
writer is invoked on exactly `items.slice(-K)` — the positional tail
slice of the built items, which (for `K ≤ N`) is the last `K` records,
not the actually rejected ones; when `failed = 0` the fallback writer is
not invoked and `fallbackResults` is absent. -/
theorem handler_fallback_tail_slice (jsonParse : JsonOracle) (clock : Clock)
    (store : Store Item) (put : PutStore Item) (records : List QueueRecord)
    (hne : (parsePhase jsonParse clock 0 records).1 ≠ []) :
    (0 < (batchWriteToDynamoDB store (parsePhase jsonParse clock 0 records).1).1.failed →
      (handler jsonParse clock store put records).2.fallbackCalls
        = sliceNeg (parsePhase jsonParse clock 0 records).1
            (batchWriteToDynamoDB store (parsePhase jsonParse clock 0 records).1).1.failed ∧
      ((handler jsonParse clock store put records).1.body.results).map
          (fun r => r.fallbackResults)
        = some (some (fallbackIndividualWrite put itemIssueId
            (sliceNeg (parsePhase jsonParse clock 0 records).1
              (batchWriteToDynamoDB store
                (parsePhase jsonParse clock 0 records).1).1.failed)))) ∧
    ((batchWriteToDynamoDB store (parsePhase jsonParse clock 0 records).1).1.failed = 0 →
      (handler jsonParse clock store put records).2.fallbackCalls = [] ∧
      ((handler jsonParse clock store put records).1.body.results).map
          (fun r => r.fallbackResults) = some none) ∧
    (∀ items : List Item, ∀ K : Int, 0 < K → K.toNat ≤ items.length →
      (sliceNeg items K).length = K.toNat ∧
      items.take (items.length - K.toNat) ++ sliceNeg items K = items) := by
  have h0 : ¬ ((parsePhase jsonParse clock 0 records).1.length = 0) := by
    intro h
    exact hne (List.length_eq_zero.mp h)
  refine ⟨?_, ?_, ?_⟩
  · intro hf
    have hrun : handler jsonParse clock store put records
        = (⟨200, ⟨"Processing complete".data,
              some ⟨(parsePhase jsonParse clock 0 records).1.length,
                    (batchWriteToDynamoDB store
                      (parsePhase jsonParse clock 0 records).1).1,
                    some (fallbackIndividualWrite put itemIssueId
                      (sliceNeg (parsePhase jsonParse clock 0 records).1
                        (batchWriteToDynamoDB store
                          (parsePhase jsonParse clock 0 records).1).1.failed)),
                    if 0 < (parsePhase jsonParse clock 0 records).2.length
                    then some (parsePhase jsonParse clock 0 records).2 else none⟩,
              none, none⟩⟩,
           ⟨(batchWriteToDynamoDB store
              (parsePhase jsonParse clock 0 records).1).2.1,
            sliceNeg (parsePhase jsonParse clock 0 records).1
              (batchWriteToDynamoDB store
                (parsePhase jsonParse clock 0 records).1).1.failed⟩) := by
      unfold handler handlerTry
      simp only []
      rw [if_neg h0, if_pos hf]
    rw [hrun]
    exact ⟨rfl, rfl⟩
  · intro hf
    have hf' : ¬ (0 < (batchWriteToDynamoDB store
        (parsePhase jsonParse clock 0 records).1).1.failed) := by
      rw [hf]
      decide
    have hrun : handler jsonParse clock store put records
        = (⟨200, ⟨"Processing complete".data,
              some ⟨(parsePhase jsonParse clock 0 records).1.length,
                    (batchWriteToDynamoDB store
                      (parsePhase jsonParse clock 0 records).1).1,
                    none,
                    if 0 < (parsePhase jsonParse clock 0 records).2.length
                    then some (parsePhase jsonParse clock 0 records).2 else none⟩,
              none, none⟩⟩,
           ⟨(batchWriteToDynamoDB store
              (parsePhase jsonParse clock 0 records).1).2.1, []⟩) := by
      unfold handler handlerTry
      simp only []
      rw [if_neg h0, if_neg hf']
    rw [hrun]
    exact ⟨rfl, rfl⟩
  · intro items K hK hKle
    unfold sliceNeg
    constructor
    · rw [List.length_drop]
      omega
    · exact List.take_append_drop _ items


/-- Witness for C4: a store that rejects everything forces `failed = 1`
on a single-record input, and the fallback is invoked on that tail. -/
theorem handler_fallback_tail_slice_witness :
    (handler (fun _ => .ok ⟨none, some []⟩) (fun _ => (0, "T".data))
        (fun _ l => SendResult.ok l) (fun _ _ => PutResult.ok)
        [⟨"m".data, "b".data⟩]).2.fallbackCalls
      = [createDynamoItem none [] 0 "T".data []] ∧
    ((handler (fun _ => .ok ⟨none, some []⟩) (fun _ => (0, "T".data))
        (fun _ l => SendResult.ok l) (fun _ _ => PutResult.ok)
        [⟨"m".data, "b".data⟩]).1.body.results).map (fun r => r.fallbackResults)
      = some (some (fallbackIndividualWrite (fun _ _ => PutResult.ok) itemIssueId
          [createDynamoItem none [] 0 "T".data []])) := by
  have h := (handler_fallback_tail_slice (fun _ => .ok ⟨none, some []⟩)
      (fun _ => (0, "T".data)) (fun _ l => SendResult.ok l)
      (fun _ _ => PutResult.ok) [⟨"m".data, "b".data⟩]
      (by decide)).1 (by decide)
  constructor
  · rw [h.1]
    decide
  · rw [h.2]
    decide

/-- Witness for C9 on one record whose body fails to JSON-parse. -/
theorem handler_no_valid_items_witness :
    (handler (fun _ => .error "Unexpected token".data) (fun _ => (0, "T".data))
        (fun _ l => SendResult.ok l) (fun _ _ => PutResult.ok)
        [⟨"m1".data, "x".data⟩]).1.statusCode = 400 ∧
    (handler (fun _ => .error "Unexpected token".data) (fun _ => (0, "T".data))
        (fun _ l => SendResult.ok l) (fun _ _ => PutResult.ok)
        [⟨"m1".data, "x".data⟩]).1.body.parseErrors
      = some [⟨"m1".data, "Unexpected token".data⟩] ∧
    (handler (fun _ => .error "Unexpected token".data) (fun _ => (0, "T".data))
        (fun _ l => SendResult.ok l) (fun _ _ => PutResult.ok)
        [⟨"m1".data, "x".data⟩]).2 = ⟨[], []⟩ := by
  have h := handler_no_valid_items (fun _ => .error "Unexpected token".data)
      (fun _ => (0, "T".data)) (fun _ l => SendResult.ok l)
      (fun _ _ => PutResult.ok) [⟨"m1".data, "x".data⟩] (by decide)
  refine ⟨h.1, ?_, h.2.2.1⟩
  rw [h.2.1]
  decide


end JiraDynamo
